import Mathlib

/-!
Verification of the Order Aggregator in `src/app.py`.

The script reads spreadsheet rows, parses quantity expressions of the form
`"<base>+<free>"` with `extract_quantities`, normalizes the Category / MRP /
Unit columns, groups by (Category, Item Name, Unit) with pandas `groupby`
(summing quantities, taking the first MRP), sorts, and renders totals and
per-row display cells.

Modelling conventions:
* Python floats are modelled as exact rationals (`ℚ`); every numeric value
  occurring in the claims is exactly representable, and no claim depends on
  binary rounding.
* A spreadsheet cell that may be missing (`NaN`, for which `pd.isna` is
  true) is an `Option`.
* Character-level string operations (`strip`, `split`, `in`, `float(...)`)
  are modelled by structurally recursive functions on `List Char`, so that
  every definition evaluates inside the kernel.
* Python's builtin `float(str)` conversion is modelled by `pyfloat?` over
  the decimal grammar (optional sign, digits with optional fraction part,
  optional exponent, surrounding whitespace); the non-finite spellings
  `inf` / `nan` and digit underscores are outside the model, and no claim
  mentions them.
-/

/-- Model of Python `str.strip()`: drop whitespace from both ends. -/
def trimChars (l : List Char) : List Char :=
  ((l.dropWhile Char.isWhitespace).reverse.dropWhile Char.isWhitespace).reverse

/-- Model of Python `str.strip()` on `String` values (used by the pandas
`.str.strip()` column operations in `app.py` lines 48-49). -/
def pystrip (s : String) : String :=
  String.mk (trimChars s.toList)

/-- Model of Python `val_str.split('+')`: split at every occurrence of
`'+'`; a string with no `'+'` yields a single part, `"a++b"` yields an
empty middle part, exactly as `str.split` does. -/
def splitPlus : List Char → List (List Char)
  | [] => [[]]
  | c :: cs =>
    if c = '+' then [] :: splitPlus cs
    else
      match splitPlus cs with
      | [] => [[c]]
      | p :: ps => (c :: p) :: ps

/-- Greedily take leading decimal digits: `takeDigits cs = (digits, rest)`. -/
def takeDigits : List Char → List Char × List Char
  | [] => ([], [])
  | c :: cs =>
    if c.isDigit then
      let p := takeDigits cs
      (c :: p.1, p.2)
    else ([], c :: cs)

/-- Numeric value of a digit string (most significant digit first). -/
def digitsToNat (ds : List Char) : Nat :=
  ds.foldl (fun n c => 10 * n + (c.toNat - 48)) 0

/-- Parse the mantissa of a float literal: `digits [. digits]` or
`. digits`, returning its exact rational value and the unconsumed
characters. -/
def parseMantissa (cs : List Char) : Option (ℚ × List Char) :=
  let p := takeDigits cs
  match p.2 with
  | '.' :: rest2 =>
    let q := takeDigits rest2
    if p.1.isEmpty && q.1.isEmpty then none
    else some ((digitsToNat p.1 : ℚ) + (digitsToNat q.1 : ℚ) / (10 ^ q.1.length : ℚ), q.2)
  | _ => if p.1.isEmpty then none else some ((digitsToNat p.1 : ℚ), p.2)

/-- Parse an optional exponent part `([eE] [+-] digits)`, returning the
exponent (0 when absent) and the unconsumed characters; a bare `e` with no
digits fails, as `float` does. -/
def parseExpPart (cs : List Char) : Option (Int × List Char) :=
  match cs with
  | c :: rest =>
    if c == 'e' || c == 'E' then
      let sp : Int × List Char :=
        match rest with
        | '+' :: r => (1, r)
        | '-' :: r => (-1, r)
        | r => (1, r)
      let q := takeDigits sp.2
      if q.1.isEmpty then none else some (sp.1 * (digitsToNat q.1 : Int), q.2)
    else some (0, c :: rest)
  | [] => some (0, [])

/-- Split an optional leading sign off a float literal, returning the sign
as `1` or `-1` together with the remaining characters. -/
def signSplit (cs : List Char) : ℚ × List Char :=
  match cs with
  | '+' :: r => (1, r)
  | '-' :: r => (-1, r)
  | r => (1, r)

/-- Model of Python's `float(s)` on finite decimal literals: strips
whitespace, then `[+-] mantissa [exponent]`; `none` models `ValueError`.
Outside the model (mapped to `none`): the case-insensitive non-finite
spellings `nan` / `inf` / `infinity`, which `float` accepts but whose
values have no counterpart in `ℚ`, and underscored digit groups such as
`1_0`.  Every such spelling of a non-finite value contains an `'n'` or
`'N'`, which is why the nonnegativity statement below excludes those two
characters rather than relying on this gap. -/
def pyfloat? (s : List Char) : Option ℚ :=
  let sp := signSplit (trimChars s)
  match parseMantissa sp.2 with
  | none => none
  | some m =>
    match parseExpPart m.2 with
    | none => none
    | some e => if e.2.isEmpty then some (sp.1 * m.1 * (10 : ℚ) ^ e.1) else none

/-- One side of a `+`-split quantity, exactly as in `app.py` lines 19-20:
`float(parts[i]) if parts[i].strip() else 0.0`, inside the `try`; `none`
models the `float` call raising. -/
def sideValue? (s : List Char) : Option ℚ :=
  if (trimChars s).isEmpty then some 0 else pyfloat? s

/-- `extract_quantities` from `src/app.py` lines 12-28.  The argument is
the raw `Raw_Qty` cell: `none` models a cell with `pd.isna(value)` true,
and a non-missing cell is taken after Python's `str(...)`.  Being a total
Lean function, it models the Python function returning on every input
(the `try`/`except` blocks convert every parse error into `(0, 0)`). -/
def extract_quantities (value : Option String) : ℚ × ℚ :=
  match value with
  | none => (0, 0)
  | some v =>
    let val_str := trimChars v.toList
    if val_str.contains '+' then
      let parts := splitPlus val_str
      match sideValue? (parts.getD 0 []), sideValue? (parts.getD 1 []) with
      | some base_qty, some free_qty => (base_qty, free_qty)
      | _, _ => (0, 0)
    else
      match pyfloat? val_str with
      | some x => (x, 0)
      | none => (0, 0)

/-! ### The data model and the aggregation pipeline (`app.py` lines 40-55) -/

/-- One spreadsheet row after `pd.read_excel` and column renaming
(`app.py` lines 40-41).  `mrp` is the cell after the numeric coercion
`pd.to_numeric(..., errors='coerce')` of line 47: `none` models a missing
or non-numeric cell (coerced to `NaN`), `some m` a numeric one. -/
structure RawRow where
  item_name : Option String
  category : Option String
  mrp : Option ℚ
  quantity_expr : Option String
  unit : Option String
deriving DecidableEq

/-- A row after the column transformations of `app.py` lines 43-49:
quantities parsed, `MRP` filled with 0, `Unit` filled with `"-"` and
stripped, `Category` filled with `"Uncategorized"` and stripped.
`Item Name` is left untouched by those lines. -/
structure CleanRow where
  item_name : Option String
  category : String
  mrp : ℚ
  quantity : ℚ
  free_quantity : ℚ
  unit : String
deriving DecidableEq

/-- Lines 43-49 of `app.py` applied to one row. -/
def normalizeRow (r : RawRow) : CleanRow :=
  let q := extract_quantities r.quantity_expr
  { item_name := r.item_name
    category := pystrip (r.category.getD "Uncategorized")
    mrp := r.mrp.getD 0
    quantity := q.1
    free_quantity := q.2
    unit := pystrip (r.unit.getD "-") }

/-- The grouping key of `df.groupby(['Category', 'Item Name', 'Unit'])`. -/
structure Key where
  category : String
  item_name : String
  unit : String
deriving DecidableEq

/-- The group key of a cleaned row; `none` when `Item Name` is missing, in
which case pandas `groupby` (default `dropna=True`) drops the row. -/
def rowKey? (c : CleanRow) : Option Key :=
  c.item_name.map fun n => { category := c.category, item_name := n, unit := c.unit }

/-- The distinct group keys observed in a cleaned frame. -/
def keysOf (cs : List CleanRow) : List Key :=
  (cs.filterMap rowKey?).dedup

/-- Python compares strings by code points; `strVal` maps a string to its
code-point sequence, on which Mathlib's lexicographic list order agrees
with Python's string order. -/
def strVal (s : String) : List Nat :=
  s.toList.map Char.toNat

/-- The sort key of a group: lexicographic on (category, item name, unit),
the full `groupby` key. -/
def keyVal (k : Key) : Lex (List Nat × Lex (List Nat × List Nat)) :=
  toLex (strVal k.category, toLex (strVal k.item_name, strVal k.unit))

/-- Ordering of group keys: ascending by category, then item name, then
unit. -/
def keyLE (a b : Key) : Prop :=
  keyVal a ≤ keyVal b

instance : DecidableRel keyLE :=
  fun a b => inferInstanceAs (Decidable (keyVal a ≤ keyVal b))

instance : IsTotal Key keyLE :=
  ⟨fun a b => le_total (keyVal a) (keyVal b)⟩

instance : IsTrans Key keyLE :=
  ⟨fun _ _ _ h1 h2 => le_trans h1 h2⟩

/-- The order in which groups leave the pipeline.  `groupby` with its
default `sort=True` sorts the groups by the full key
(Category, Item Name, Unit); the subsequent
`.sort_values(by=['Category', 'Item Name'])` re-sorts by a prefix of that
key and therefore leaves the already-sorted frame unchanged, so the
composition is modelled as a single sort by the full key. -/
def sortKeys (ks : List Key) : List Key :=
  List.insertionSort keyLE ks

/-- One output row of the aggregation (one line of the final table). -/
structure AggregateRow where
  category : String
  item_name : String
  unit : String
  quantity : ℚ
  free_quantity : ℚ
  mrp : ℚ
deriving DecidableEq

/-- The group key an aggregate row carries. -/
def keyOf (ar : AggregateRow) : Key :=
  { category := ar.category, item_name := ar.item_name, unit := ar.unit }

/-- The rows of one group, in input order. -/
def groupRows (cs : List CleanRow) (k : Key) : List CleanRow :=
  cs.filter fun c => rowKey? c == some k

/-- The `agg` dictionary of `app.py` lines 51-55 applied to one group:
`Quantity: sum`, `Free_Quantity: sum`, `MRP: first`. -/
def aggRowFor (cs : List CleanRow) (k : Key) : AggregateRow :=
  let g := groupRows cs k
  { category := k.category
    item_name := k.item_name
    unit := k.unit
    quantity := (g.map CleanRow.quantity).sum
    free_quantity := (g.map CleanRow.free_quantity).sum
    mrp := ((g.head?).map CleanRow.mrp).getD 0 }

/-- The whole pipeline of `app.py` lines 43-55: normalize every row, group
by (Category, Item Name, Unit) — dropping rows whose key contains a
missing `Item Name`, as `groupby` does by default — aggregate each group,
and emit the groups in sorted key order. -/
def aggregate (rows : List RawRow) : List AggregateRow :=
  (sortKeys (keysOf (rows.map normalizeRow))).map (aggRowFor (rows.map normalizeRow))

/-- The totals loop of `app.py` lines 96-100: `t_qty` and `t_free` start
at 0 and accumulate `row['Quantity']` and `row['Free_Quantity']` over the
output rows. -/
def reportTotals (rows : List RawRow) : ℚ × ℚ :=
  (aggregate rows).foldl (fun t r => (t.1 + r.quantity, t.2 + r.free_quantity)) (0, 0)

/-! ### Display cells (`app.py` lines 102-104) -/

/-- A table cell handed to the renderer: the Python code puts either an
`int` or a formatted string into `table_data`. -/
inductive Cell where
  | intCell : Int → Cell
  | strCell : String → Cell
deriving DecidableEq

/-- Model of Python `int(...)` on a float: truncation toward zero. -/
def pyInt (q : ℚ) : Int :=
  if 0 ≤ q then ⌊q⌋ else ⌈q⌉

/-- Round to the nearest integer, ties to even — the rounding used by
Python's fixed-point string formatting. -/
def roundHalfEven (q : ℚ) : Int :=
  let f := ⌊q⌋
  if q - f < 1 / 2 then f
  else if 1 / 2 < q - f then f + 1
  else if f % 2 = 0 then f
  else f + 1

/-- Decimal digits of a natural number (structural, via a fuel bound). -/
def natToCharsAux : Nat → Nat → List Char
  | 0, _ => []
  | fuel + 1, n => if n = 0 then [] else natToCharsAux fuel (n / 10) ++ [Char.ofNat (48 + n % 10)]

/-- Decimal rendering of a natural number. -/
def natToChars (n : Nat) : List Char :=
  if n = 0 then ['0'] else natToCharsAux (n + 1) n

/-- Model of Python `f"{x:.2f}"`: the value rounded to two decimal places
(ties to even) and rendered with exactly two fraction digits. -/
def fmtFixed2 (q : ℚ) : String :=
  let n := roundHalfEven (q * 100)
  let a := n.natAbs
  let fp := a % 100
  String.mk ((if n < 0 then ['-'] else []) ++ natToChars (a / 100) ++ ['.'] ++
    (if fp < 10 then '0' :: natToChars fp else natToChars fp))

/-- Line 102 of `app.py`: `f"{row['MRP']:.2f}" if row['MRP'] != 0 else ""`. -/
def mrp_disp (m : ℚ) : Cell :=
  if m ≠ 0 then Cell.strCell (fmtFixed2 m) else Cell.strCell ""

/-- Line 103 of `app.py`:
`int(q) if q.is_integer() else f"{q:.2f}"`; a rational is a whole number
exactly when its reduced denominator is 1. -/
def qty_disp (q : ℚ) : Cell :=
  if q.den = 1 then Cell.intCell (pyInt q) else Cell.strCell (fmtFixed2 q)

/-- Line 104 of `app.py`: `int(f) if f > 0 else ""`. -/
def free_disp (f : ℚ) : Cell :=
  if 0 < f then Cell.intCell (pyInt f) else Cell.strCell ""

/-! ### Readings of the quantity-parser contract

Two definitions written from the specification's wording, to be compared
with `extract_quantities` (which is translated from the code).
-/

/-- The substrings before and after the FIRST `'+'` of a string. -/
def splitFirstPlus (l : List Char) : List Char × List Char :=
  match splitPlus l with
  | [] => (l, [])
  | p :: ps => (p, List.intercalate ['+'] ps)

/-- The claim's reading of the parser: an input containing `'+'` is split
into exactly two substrings on the FIRST `'+'`; each side, if non-empty
after trimming, is parsed as a float (empty side ↦ 0); either side failing
to parse makes the whole result `(0, 0)`; an input with no `'+'` is parsed
as a single float, `(0, 0)` on failure. -/
def parse_quantity_claimed (value : Option String) : ℚ × ℚ :=
  match value with
  | none => (0, 0)
  | some v =>
    let t := trimChars v.toList
    if t.contains '+' then
      let p := splitFirstPlus t
      match sideValue? p.1, sideValue? p.2 with
      | some b, some f => (b, f)
      | _, _ => (0, 0)
    else
      match pyfloat? t with
      | some x => (x, 0)
      | none => (0, 0)

/-- The amended reading: the input is split at EVERY `'+'` and only the
first two parts are used (parts after the second are ignored); each of the
two, if non-empty after trimming, is parsed as a float (empty part ↦ 0);
either of the two failing to parse makes the whole result `(0, 0)`; an
input with no `'+'` is parsed as a single float, `(0, 0)` on failure. -/
def parse_quantity_amended (value : Option String) : ℚ × ℚ :=
  match value with
  | none => (0, 0)
  | some v =>
    let t := trimChars v.toList
    if t.contains '+' then
      match (splitPlus t).take 2 with
      | [p0, p1] =>
        match sideValue? p0, sideValue? p1 with
        | some b, some f => (b, f)
        | _, _ => (0, 0)
      | _ => (0, 0)
    else
      match pyfloat? t with
      | some x => (x, 0)
      | none => (0, 0)

/-! ### Concrete inputs used by the claims -/

/-- The end-to-end rows of the specification:
`[("Rice","Food",50,"10+2","kg"), ("Rice","Food",50,"5","kg")]`. -/
def riceRows : List RawRow :=
  [{ item_name := some "Rice", category := some "Food", mrp := some 50,
     quantity_expr := some "10+2", unit := some "kg" },
   { item_name := some "Rice", category := some "Food", mrp := some 50,
     quantity_expr := some "5", unit := some "kg" }]

/-- The expected single aggregate row for `riceRows`. -/
def riceAgg : AggregateRow :=
  { category := "Food", item_name := "Rice", unit := "kg",
    quantity := 15, free_quantity := 2, mrp := 50 }

/-- Categories `["B", "A"]`, one item each. -/
def baRows : List RawRow :=
  [{ item_name := some "x", category := some "B", mrp := some 1,
     quantity_expr := some "1", unit := some "u" },
   { item_name := some "y", category := some "A", mrp := some 2,
     quantity_expr := some "1", unit := some "u" }]

/-- Two rows of the same (category, item name) whose units arrive in
reverse alphabetical order. -/
def unitTieRows : List RawRow :=
  [{ item_name := some "x", category := some "C", mrp := some 1,
     quantity_expr := some "1", unit := some "zz" },
   { item_name := some "x", category := some "C", mrp := some 1,
     quantity_expr := some "1", unit := some "aa" }]

/-- Two rows with the same (category, item name, unit) but different MRP. -/
def mrpCollapseRows : List RawRow :=
  [{ item_name := some "Soap", category := some "Care", mrp := some 50,
     quantity_expr := some "1+1", unit := some "pc" },
   { item_name := some "Soap", category := some "Care", mrp := some 60,
     quantity_expr := some "2", unit := some "pc" }]

/-- The aggregate row `mrpCollapseRows` collapses to. -/
def mrpCollapseAgg : AggregateRow :=
  { category := "Care", item_name := "Soap", unit := "pc",
    quantity := 3, free_quantity := 1, mrp := 50 }

/-- A row producing an aggregate line with whole quantity, zero MRP and
zero free quantity. -/
def dispDemoRows : List RawRow :=
  [{ item_name := some "x", category := some "C", mrp := none,
     quantity_expr := some "3", unit := some "u" }]

/-- The aggregate row `dispDemoRows` produces. -/
def dispAgg : AggregateRow :=
  { category := "C", item_name := "x", unit := "u",
    quantity := 3, free_quantity := 0, mrp := 0 }

/-- A row with unit, category and MRP all missing. -/
def bareRow : RawRow :=
  { item_name := some "x", category := none, mrp := none,
    quantity_expr := none, unit := none }

/-! ### Proofs

`Rat.add`, `Rat.mul`, `Rat.inv` and `Rat.sub` are marked irreducible in the
library; the kernel reduces them regardless, and re-marking them
semireducible lets concrete runs of the pipeline be settled by `decide`.
-/

set_option allowUnsafeReducibility true

attribute [local semireducible] Rat.add Rat.mul Rat.inv Rat.sub

lemma splitPlus_ne_nil : ∀ l : List Char, splitPlus l ≠ []
  | [] => by simp [splitPlus]
  | c :: cs => by
    unfold splitPlus
    by_cases hc : c = '+'
    · simp [hc]
    · simp only [hc, if_false]
      cases h : splitPlus cs <;> simp

lemma two_le_splitPlus : ∀ {l : List Char}, l.contains '+' = true → 2 ≤ (splitPlus l).length := by
  intro l
  induction l with
  | nil => intro h; simp [List.contains] at h
  | cons c cs ih =>
    intro h
    unfold splitPlus
    by_cases hc : c = '+'
    · cases hsp : splitPlus cs with
      | nil => exact absurd hsp (splitPlus_ne_nil cs)
      | cons p ps => simp [hc, hsp]
    · have hcs : cs.contains '+' = true := by
        simp only [List.contains_cons] at h
        rcases Bool.or_eq_true_iff.mp h with h1 | h1
        · exact absurd (beq_iff_eq.mp h1).symm hc
        · exact h1
      cases hsp : splitPlus cs with
      | nil => exact absurd hsp (splitPlus_ne_nil cs)
      | cons p ps =>
        have := ih hcs
        rw [hsp] at this
        simp only [hc, if_false, hsp]
        simpa using this

/-- C1 counterexample: on `"1+2+3"` the code splits at EVERY `'+'` and
uses the first two parts, returning `(1, 2)`; the claim's split on the
FIRST `'+'` would leave the unparseable right side `"2+3"` and force
`(0, 0)`. -/
theorem C1_counterexample :
    extract_quantities (some "1+2+3") = (1, 2) ∧
    parse_quantity_claimed (some "1+2+3") = (0, 0) := by
  constructor <;> decide

/-- C1 (amended): `extract_quantities` splits its trimmed input at every
`'+'` and uses only the first two parts (parts after the second are
ignored); each of the two, if non-empty after trimming, is parsed as a
float and an empty part yields 0; either of the two failing to parse
yields `(0, 0)`; an input with no `'+'` is parsed as a single float with
`(0, 0)` on failure. -/
theorem C1_split_every_plus (v : Option String) :
    extract_quantities v = parse_quantity_amended v := by
  cases v with
  | none => rfl
  | some s =>
    show extract_quantities (some s) = parse_quantity_amended (some s)
    unfold extract_quantities parse_quantity_amended
    by_cases h : (trimChars s.toList).contains '+' = true
    · simp only [h, if_true]
      rcases hsp : splitPlus (trimChars s.toList) with _ | ⟨p0, rest0⟩
      · exact absurd hsp (splitPlus_ne_nil _)
      · rcases rest0 with _ | ⟨p1, rest1⟩
        · have h2 := two_le_splitPlus h
          rw [hsp] at h2
          simp at h2
        · simp [List.getD]
    · simp only [Bool.not_eq_true] at h
      simp only [h, Bool.false_eq_true, if_false]

lemma trimChars_subset (l : List Char) : trimChars l ⊆ l := by
  intro a ha
  unfold trimChars at ha
  rw [List.mem_reverse] at ha
  have ha2 := (List.dropWhile_sublist _).subset ha
  rw [List.mem_reverse] at ha2
  exact (List.dropWhile_sublist _).subset ha2

lemma splitPlus_subset : ∀ {l p : List Char}, p ∈ splitPlus l → p ⊆ l := by
  intro l
  induction l with
  | nil =>
    intro p hp
    simp only [splitPlus, List.mem_singleton] at hp
    subst hp
    exact List.nil_subset _
  | cons c cs ih =>
    intro p hp
    unfold splitPlus at hp
    by_cases hc : c = '+'
    · simp only [hc, if_true] at hp
      rcases List.mem_cons.mp hp with rfl | hmem
      · exact List.nil_subset _
      · exact (ih hmem).trans (List.subset_cons_self _ _)
    · simp only [hc, if_false] at hp
      cases hsp : splitPlus cs with
      | nil => exact absurd hsp (splitPlus_ne_nil cs)
      | cons q qs =>
        rw [hsp] at hp
        rcases List.mem_cons.mp hp with rfl | hmem
        · intro a ha
          rcases List.mem_cons.mp ha with rfl | ha2
          · exact List.mem_cons_self _ _
          · exact List.mem_cons_of_mem _ (ih (hsp ▸ List.mem_cons_self q qs) ha2)
        · exact (ih (hsp ▸ List.mem_cons_of_mem q hmem)).trans (List.subset_cons_self _ _)

lemma parseMantissa_nonneg {cs : List Char} {m : ℚ × List Char}
    (h : parseMantissa cs = some m) : 0 ≤ m.1 := by
  simp only [parseMantissa] at h
  split at h
  · split at h
    · exact absurd h (by simp)
    · obtain rfl := (Option.some_inj.mp h).symm
      positivity
  · split at h
    · exact absurd h (by simp)
    · obtain rfl := (Option.some_inj.mp h).symm
      positivity

lemma signSplit_nonneg {cs : List Char} (h : ('-') ∉ cs) : 0 ≤ (signSplit cs).1 := by
  unfold signSplit
  split
  · norm_num
  · exact absurd (List.mem_cons_self _ _) h
  · norm_num

lemma pyfloat?_nonneg {l : List Char} (hm : ('-') ∉ l) {x : ℚ}
    (h : pyfloat? l = some x) : 0 ≤ x := by
  simp only [pyfloat?] at h
  split at h
  · exact absurd h (by simp)
  · rename_i m hpm
    split at h
    · exact absurd h (by simp)
    · rename_i e hpe
      split at h
      · obtain rfl := (Option.some_inj.mp h).symm
        have hsg : 0 ≤ (signSplit (trimChars l)).1 :=
          signSplit_nonneg fun hc => hm (trimChars_subset l hc)
        have hm0 := parseMantissa_nonneg hpm
        have h10 : (0 : ℚ) ≤ (10 : ℚ) ^ e.1 := zpow_nonneg (by norm_num) _
        exact mul_nonneg (mul_nonneg hsg hm0) h10
      · exact absurd h (by simp)

lemma sideValue?_nonneg {p : List Char} (hm : ('-') ∉ p) {x : ℚ}
    (h : sideValue? p = some x) : 0 ≤ x := by
  unfold sideValue? at h
  split at h
  · obtain rfl := (Option.some_inj.mp h).symm
    exact le_refl 0
  · exact pyfloat?_nonneg hm h

lemma extract_zero_on_no_plus_failure {s : String}
    (h : (trimChars s.toList).contains '+' = false)
    (hf : pyfloat? (trimChars s.toList) = none) :
    extract_quantities (some s) = (0, 0) := by
  unfold extract_quantities
  simp only [h, Bool.false_eq_true, if_false, hf]

lemma extract_zero_on_side_failure {s : String}
    (h : (trimChars s.toList).contains '+' = true)
    (hd : sideValue? ((splitPlus (trimChars s.toList)).getD 0 []) = none ∨
      sideValue? ((splitPlus (trimChars s.toList)).getD 1 []) = none) :
    extract_quantities (some s) = (0, 0) := by
  unfold extract_quantities
  simp only [h, if_true]
  rcases hd with h0 | h1
  · simp only [h0]
  · cases hv0 : sideValue? ((splitPlus (trimChars s.toList)).getD 0 []) <;>
      simp only [hv0, h1]

/-- C4 counterexample: on input `"-5"` the parser returns `(-5, 0)`, so
the claimed invariant `base ≥ 0` fails. -/
theorem C4_counterexample :
    extract_quantities (some "-5") = (-5, 0) ∧ ¬ (0 ≤ (extract_quantities (some "-5")).1) := by
  constructor <;> decide

/-- C4 (amended): a missing input and every parse failure — in both the
`'+'` branch and the single-number branch — yield `(0, 0)`, and the
components are nonnegative whenever the input contains none of `'-'`,
`'n'`, `'N'`.  The exclusion of `'n'`/`'N'` confines the statement to
inputs where Python's `float` returns only nonnegative finite values:
every spelling of `nan`, `inf` and `infinity` that `float` accepts
contains an `'n'` or `'N'`, and `float("nan")` succeeds with a NaN
component (not nonnegative, and not representable in the `ℚ` model), so
the unconditional invariant `base ≥ 0 ∧ free ≥ 0` fails both for
negative numbers and for NaN spellings. -/
theorem C4_conditional_nonneg :
    extract_quantities none = (0, 0) ∧
    (∀ s : String, ('-') ∉ s.toList → ('n') ∉ s.toList → ('N') ∉ s.toList →
      0 ≤ (extract_quantities (some s)).1 ∧ 0 ≤ (extract_quantities (some s)).2) ∧
    (∀ s : String, (trimChars s.toList).contains '+' = false →
      pyfloat? (trimChars s.toList) = none → extract_quantities (some s) = (0, 0)) ∧
    (∀ s : String, (trimChars s.toList).contains '+' = true →
      sideValue? ((splitPlus (trimChars s.toList)).getD 0 []) = none ∨
      sideValue? ((splitPlus (trimChars s.toList)).getD 1 []) = none →
      extract_quantities (some s) = (0, 0)) := by
  refine ⟨rfl, ?_, fun s h hf => extract_zero_on_no_plus_failure h hf,
    fun s h hd => extract_zero_on_side_failure h hd⟩
  intro s hm _hn _hN
  unfold extract_quantities
  by_cases h : (trimChars s.toList).contains '+' = true
  · simp only [h, if_true]
    rcases hsp : splitPlus (trimChars s.toList) with _ | ⟨p0, rest0⟩
    · exact absurd hsp (splitPlus_ne_nil _)
    · rcases rest0 with _ | ⟨p1, rest1⟩
      · have h2 := two_le_splitPlus h
        rw [hsp] at h2
        simp at h2
      · have hs0 : p0 ⊆ s.toList :=
          (splitPlus_subset (hsp ▸ List.mem_cons_self _ _)).trans (trimChars_subset _)
        have hs1 : p1 ⊆ s.toList :=
          (splitPlus_subset (hsp ▸ List.mem_cons_of_mem _ (List.mem_cons_self _ _))).trans
            (trimChars_subset _)
        simp only [List.getD_cons_zero, List.getD_cons_succ]
        cases hv0 : sideValue? p0 with
        | none => exact ⟨le_refl 0, le_refl 0⟩
        | some b =>
          cases hv1 : sideValue? p1 with
          | none => exact ⟨le_refl 0, le_refl 0⟩
          | some f =>
            exact ⟨sideValue?_nonneg (fun hc => hm (hs0 hc)) hv0,
              sideValue?_nonneg (fun hc => hm (hs1 hc)) hv1⟩
  · simp only [Bool.not_eq_true] at h
    simp only [h, Bool.false_eq_true, if_false]
    cases hv : pyfloat? (trimChars s.toList) with
    | none => exact ⟨le_refl 0, le_refl 0⟩
    | some x =>
      have : ('-') ∉ trimChars s.toList := fun hc => hm (trimChars_subset _ hc)
      exact ⟨pyfloat?_nonneg this hv, le_refl 0⟩

/-- C4 witness: `"10+2"` contains none of `'-'`, `'n'`, `'N'` and its
parsed components are nonnegative; the unparseable `"abc+2"` resolves to
`(0, 0)`. -/
theorem C4_witness :
    (('-') ∉ "10+2".toList ∧ ('n') ∉ "10+2".toList ∧ ('N') ∉ "10+2".toList ∧
      0 ≤ (extract_quantities (some "10+2")).1 ∧ 0 ≤ (extract_quantities (some "10+2")).2) ∧
    ((trimChars "abc+2".toList).contains '+' = true ∧
      extract_quantities (some "abc+2") = (0, 0)) :=
  ⟨⟨by decide, by decide, by decide,
    C4_conditional_nonneg.2.1 "10+2" (by decide) (by decide) (by decide)⟩,
   ⟨by decide, C4_conditional_nonneg.2.2.2 "abc+2" (by decide) (Or.inl (by decide))⟩⟩

/-- C8: `extract_quantities` is a total function (no exception escapes);
a missing/null input returns `(0, 0)`, and in either branch a parse
failure silently yields `(0, 0)` instead of propagating an error. -/
theorem C8_silent_failure :
    extract_quantities none = (0, 0) ∧
    (∀ s : String, (trimChars s.toList).contains '+' = false →
      pyfloat? (trimChars s.toList) = none → extract_quantities (some s) = (0, 0)) ∧
    (∀ s : String, (trimChars s.toList).contains '+' = true →
      sideValue? ((splitPlus (trimChars s.toList)).getD 0 []) = none ∨
      sideValue? ((splitPlus (trimChars s.toList)).getD 1 []) = none →
      extract_quantities (some s) = (0, 0)) :=
  ⟨rfl, fun _ h hf => extract_zero_on_no_plus_failure h hf,
    fun _ h hd => extract_zero_on_side_failure h hd⟩

/-- C8 witness: the unparseable `"abc"` (no `'+'`) and `"abc+2"` (left
side unparseable) both resolve to `(0, 0)`. -/
theorem C8_witness :
    ((trimChars "abc".toList).contains '+' = false ∧
      pyfloat? (trimChars "abc".toList) = none ∧
      extract_quantities (some "abc") = (0, 0)) ∧
    ((trimChars "abc+2".toList).contains '+' = true ∧
      sideValue? ((splitPlus (trimChars "abc+2".toList)).getD 0 []) = none ∧
      extract_quantities (some "abc+2") = (0, 0)) :=
  ⟨⟨by decide, by decide, C8_silent_failure.2.1 "abc" (by decide) (by decide)⟩,
   ⟨by decide, by decide, C8_silent_failure.2.2 "abc+2" (by decide) (Or.inl (by decide))⟩⟩

lemma normalizeRow_item (r : RawRow) : (normalizeRow r).item_name = r.item_name := rfl

lemma keyOf_aggRowFor (cs : List CleanRow) (k : Key) : keyOf (aggRowFor cs k) = k := rfl

lemma mem_aggregate {rows : List RawRow} {ar : AggregateRow} :
    ar ∈ aggregate rows ↔
      ∃ k ∈ keysOf (rows.map normalizeRow), ar = aggRowFor (rows.map normalizeRow) k := by
  unfold aggregate sortKeys
  rw [List.mem_map]
  constructor
  · rintro ⟨k, hk, rfl⟩
    exact ⟨k, (List.perm_insertionSort keyLE _).mem_iff.mp hk, rfl⟩
  · rintro ⟨k, hk, rfl⟩
    exact ⟨k, (List.perm_insertionSort keyLE _).mem_iff.mpr hk, rfl⟩

lemma groupRows_ne_nil {cs : List CleanRow} {k : Key} (h : k ∈ keysOf cs) :
    ∃ c0 rest, groupRows cs k = c0 :: rest := by
  rw [keysOf, List.mem_dedup, List.mem_filterMap] at h
  obtain ⟨c, hc, hck⟩ := h
  have hmem : c ∈ groupRows cs k := List.mem_filter.mpr ⟨hc, by simp [hck]⟩
  rcases hg : groupRows cs k with _ | ⟨c0, rest⟩
  · rw [hg] at hmem
    cases hmem
  · exact ⟨c0, rest, rfl⟩

lemma aggRowFor_mrp {cs : List CleanRow} {k : Key} {c0 : CleanRow} {rest : List CleanRow}
    (h : groupRows cs k = c0 :: rest) : (aggRowFor cs k).mrp = c0.mrp := by
  simp [aggRowFor, h]

/-- C2: every output row of the aggregation carries, for its group, the
sum of parsed base quantities, the sum of parsed free quantities, and the
MRP of the first row of the group in input order; in particular two rows
with identical key but different MRP collapse into one output row carrying
the first row's MRP. -/
theorem C2_group_sums_first_mrp :
    (∀ rows : List RawRow, ∀ ar ∈ aggregate rows,
      ar.quantity = ((groupRows (rows.map normalizeRow) (keyOf ar)).map CleanRow.quantity).sum ∧
      ar.free_quantity =
        ((groupRows (rows.map normalizeRow) (keyOf ar)).map CleanRow.free_quantity).sum ∧
      ∃ c0 rest, groupRows (rows.map normalizeRow) (keyOf ar) = c0 :: rest ∧ ar.mrp = c0.mrp) ∧
    aggregate mrpCollapseRows = [mrpCollapseAgg] := by
  constructor
  · intro rows ar har
    obtain ⟨k, hk, rfl⟩ := mem_aggregate.mp har
    rw [keyOf_aggRowFor]
    refine ⟨rfl, rfl, ?_⟩
    obtain ⟨c0, rest, hg⟩ := groupRows_ne_nil hk
    exact ⟨c0, rest, hg, aggRowFor_mrp hg⟩
  · decide

/-- C2 witness: the collapsed row of `mrpCollapseRows` is an output row
and its quantity is its group's sum. -/
theorem C2_witness :
    mrpCollapseAgg ∈ aggregate mrpCollapseRows ∧
    mrpCollapseAgg.quantity =
      ((groupRows (mrpCollapseRows.map normalizeRow) (keyOf mrpCollapseAgg)).map
        CleanRow.quantity).sum :=
  ⟨by decide, (C2_group_sums_first_mrp.1 mrpCollapseRows mrpCollapseAgg (by decide)).1⟩

/-- C3 counterexample: two rows share (category, item name) and arrive
with units `["zz", "aa"]`; the output lists them as `["aa", "zz"]`, so
ties in (category, item name) do not keep their original relative order —
they are re-ordered by unit. -/
theorem C3_counterexample :
    (unitTieRows.map fun r => r.unit) = [some "zz", some "aa"] ∧
    (aggregate unitTieRows).map AggregateRow.category = ["C", "C"] ∧
    (aggregate unitTieRows).map AggregateRow.item_name = ["x", "x"] ∧
    (aggregate unitTieRows).map AggregateRow.unit = ["aa", "zz"] :=
  ⟨by decide, by decide, by decide, by decide⟩

lemma map_keyOf_aggregate (rows : List RawRow) :
    (aggregate rows).map keyOf = sortKeys (keysOf (rows.map normalizeRow)) := by
  unfold aggregate
  rw [List.map_map]
  have hid : keyOf ∘ aggRowFor (rows.map normalizeRow) = id := funext fun k => rfl
  rw [hid, List.map_id]

/-- C3 (amended): the output is sorted ascending by the full group key —
category, then item name, then unit (the `groupby` sorts by all three
before the final sort by the first two re-traverses it); rows with equal
(category, item name) are therefore ordered by unit, not by original
relative order.  Given categories `["B", "A"]`, the output starts with
`"A"`. -/
theorem C3_sorted_by_full_key :
    (∀ rows : List RawRow, List.Sorted keyLE ((aggregate rows).map keyOf)) ∧
    (aggregate baRows).map AggregateRow.category = ["A", "B"] := by
  constructor
  · intro rows
    rw [map_keyOf_aggregate]
    unfold sortKeys
    exact List.sorted_insertionSort keyLE _
  · decide

lemma foldl_totals (l : List AggregateRow) (a b : ℚ) :
    l.foldl (fun t r => (t.1 + r.quantity, t.2 + r.free_quantity)) (a, b) =
      (a + (l.map AggregateRow.quantity).sum, b + (l.map AggregateRow.free_quantity).sum) := by
  induction l generalizing a b with
  | nil => simp
  | cons r rs ih => simp [ih, add_assoc]

/-- C5: the report totals are the sums of `quantity` and `free_quantity`
over the output aggregate rows; on the rice rows the aggregator produces
exactly one row `(Food, Rice, kg, 15, 2, 50)` with totals `(15, 2)`. -/
theorem C5_totals :
    (∀ rows : List RawRow, reportTotals rows =
      (((aggregate rows).map AggregateRow.quantity).sum,
        ((aggregate rows).map AggregateRow.free_quantity).sum)) ∧
    aggregate riceRows = [riceAgg] ∧ reportTotals riceRows = (15, 2) := by
  refine ⟨?_, by decide, by decide⟩
  intro rows
  rw [reportTotals, foldl_totals]
  simp

/-- C6: normalization maps a missing unit to the placeholder `"-"` and a
present one to its stripped form; a missing category to
`"Uncategorized"` and a present one to its stripped form; a missing or
non-numeric MRP to 0 and a numeric one to its value. -/
theorem C6_field_normalization (r : RawRow) :
    ((r.unit = none → (normalizeRow r).unit = "-") ∧
      ∀ u, r.unit = some u → (normalizeRow r).unit = pystrip u) ∧
    ((r.category = none → (normalizeRow r).category = "Uncategorized") ∧
      ∀ c, r.category = some c → (normalizeRow r).category = pystrip c) ∧
    ((r.mrp = none → (normalizeRow r).mrp = 0) ∧
      ∀ m, r.mrp = some m → (normalizeRow r).mrp = m) := by
  refine ⟨⟨?_, ?_⟩, ⟨?_, ?_⟩, ⟨?_, ?_⟩⟩
  · intro h
    simp only [normalizeRow, h, Option.getD_none]
    decide
  · intro u h
    simp [normalizeRow, h]
  · intro h
    simp only [normalizeRow, h, Option.getD_none]
    decide
  · intro c h
    simp [normalizeRow, h]
  · intro h
    simp [normalizeRow, h]
  · intro m h
    simp [normalizeRow, h]

/-- C6 witness: a row with all of unit, category and MRP missing
normalizes to `"-"`, `"Uncategorized"` and 0. -/
theorem C6_witness :
    (normalizeRow bareRow).unit = "-" ∧
    (normalizeRow bareRow).category = "Uncategorized" ∧
    (normalizeRow bareRow).mrp = 0 :=
  ⟨(C6_field_normalization bareRow).1.1 rfl, (C6_field_normalization bareRow).2.1.1 rfl,
    (C6_field_normalization bareRow).2.2.1 rfl⟩

/-- C7: under any permutation of the input rows, each group keeps the
same summed quantity and free quantity (sums are order-insensitive),
while a group's MRP is the MRP of whichever of its rows comes first in
the given input order — so `mrpCollapseRows` yields MRP 50 but its
reversal yields MRP 60. -/
theorem C7_permutation_invariance :
    (∀ l1 l2 : List RawRow, l1.Perm l2 → ∀ ar ∈ aggregate l1,
      ∃ ar2 ∈ aggregate l2, ar2.category = ar.category ∧ ar2.item_name = ar.item_name ∧
        ar2.unit = ar.unit ∧ ar2.quantity = ar.quantity ∧
        ar2.free_quantity = ar.free_quantity) ∧
    (∀ rows : List RawRow, ∀ ar ∈ aggregate rows, ∃ c0 rest,
      groupRows (rows.map normalizeRow) (keyOf ar) = c0 :: rest ∧ ar.mrp = c0.mrp) ∧
    (aggregate mrpCollapseRows).map AggregateRow.mrp = [50] ∧
    (aggregate mrpCollapseRows.reverse).map AggregateRow.mrp = [60] := by
  refine ⟨?_, ?_, by decide, by decide⟩
  · intro l1 l2 hp ar har
    obtain ⟨k, hk, rfl⟩ := mem_aggregate.mp har
    have hcp : (l1.map normalizeRow).Perm (l2.map normalizeRow) := hp.map normalizeRow
    have hk2 : k ∈ keysOf (l2.map normalizeRow) := by
      rw [keysOf, List.mem_dedup] at hk ⊢
      exact (hcp.filterMap rowKey?).mem_iff.mp hk
    have hgp : (groupRows (l2.map normalizeRow) k).Perm (groupRows (l1.map normalizeRow) k) :=
      hcp.symm.filter _
    refine ⟨aggRowFor (l2.map normalizeRow) k, mem_aggregate.mpr ⟨k, hk2, rfl⟩,
      rfl, rfl, rfl, ?_, ?_⟩
    · exact (hgp.map CleanRow.quantity).sum_eq
    · exact (hgp.map CleanRow.free_quantity).sum_eq
  · intro rows ar har
    obtain ⟨k, hk, rfl⟩ := mem_aggregate.mp har
    rw [keyOf_aggRowFor]
    obtain ⟨c0, rest, hg⟩ := groupRows_ne_nil hk
    exact ⟨c0, rest, hg, aggRowFor_mrp hg⟩

/-- C7 witness: the reversal of `mrpCollapseRows` is a permutation of it,
and the collapsed row's group has a matching output row with the same
sums in the reversed input. -/
theorem C7_witness :
    mrpCollapseRows.Perm mrpCollapseRows.reverse ∧
    mrpCollapseAgg ∈ aggregate mrpCollapseRows ∧
    ∃ ar2 ∈ aggregate mrpCollapseRows.reverse, ar2.category = mrpCollapseAgg.category ∧
      ar2.item_name = mrpCollapseAgg.item_name ∧ ar2.unit = mrpCollapseAgg.unit ∧
      ar2.quantity = mrpCollapseAgg.quantity ∧
      ar2.free_quantity = mrpCollapseAgg.free_quantity :=
  ⟨(List.reverse_perm mrpCollapseRows).symm, by decide,
    C7_permutation_invariance.1 mrpCollapseRows mrpCollapseRows.reverse
      (List.reverse_perm mrpCollapseRows).symm mrpCollapseAgg (by decide)⟩

/-- C9: at the presentation boundary, an output row whose quantity is a
whole number renders as a plain integer (no decimal places), an MRP of
exactly 0 renders as an empty field, and a free quantity of 0 renders as
an empty field. -/
theorem C9_display_rules (rows : List RawRow) (ar : AggregateRow)
    (_har : ar ∈ aggregate rows) :
    (ar.quantity.den = 1 → qty_disp ar.quantity = Cell.intCell ar.quantity.num) ∧
    (ar.mrp = 0 → mrp_disp ar.mrp = Cell.strCell "") ∧
    (ar.free_quantity = 0 → free_disp ar.free_quantity = Cell.strCell "") := by
  refine ⟨?_, ?_, ?_⟩
  · intro hden
    have hq : (ar.quantity.num : ℚ) = ar.quantity := Rat.coe_int_num_of_den_eq_one hden
    unfold qty_disp
    rw [if_pos hden]
    congr 1
    unfold pyInt
    split
    · conv_lhs => rw [← hq]
      exact Int.floor_intCast _
    · conv_lhs => rw [← hq]
      exact Int.ceil_intCast _
  · intro h
    simp [mrp_disp, h]
  · intro h
    simp [free_disp, h]

/-- C9 witness: the single output row of `dispDemoRows` has whole
quantity 3, MRP 0 and free quantity 0, and renders as the integer cell 3
with empty MRP and free fields. -/
theorem C9_witness :
    dispAgg ∈ aggregate dispDemoRows ∧
    qty_disp dispAgg.quantity = Cell.intCell dispAgg.quantity.num ∧
    mrp_disp dispAgg.mrp = Cell.strCell "" ∧
    free_disp dispAgg.free_quantity = Cell.strCell "" :=
  ⟨by decide,
    (C9_display_rules dispDemoRows dispAgg (by decide)).1 (by decide),
    (C9_display_rules dispDemoRows dispAgg (by decide)).2.1 (by decide),
    (C9_display_rules dispDemoRows dispAgg (by decide)).2.2 (by decide)⟩

lemma filterMap_rowKey_filter (cs : List CleanRow) :
    (cs.filter fun c => c.item_name.isSome).filterMap rowKey? = cs.filterMap rowKey? := by
  induction cs with
  | nil => rfl
  | cons c cs ih =>
    cases hc : c.item_name with
    | none =>
      have h1 : c.item_name.isSome = false := by rw [hc]; rfl
      have h2 : rowKey? c = none := by simp [rowKey?, hc]
      simp [List.filter_cons, h1, List.filterMap_cons, h2, ih]
    | some n =>
      have h1 : c.item_name.isSome = true := by rw [hc]; rfl
      simp [List.filter_cons, h1, List.filterMap_cons, ih]

lemma groupRows_filter (cs : List CleanRow) (k : Key) :
    groupRows (cs.filter fun c => c.item_name.isSome) k = groupRows cs k := by
  unfold groupRows
  rw [List.filter_filter]
  apply List.filter_congr
  intro c _
  cases hc : c.item_name with
  | none => simp [rowKey?, hc]
  | some n => simp [rowKey?, hc]

lemma map_filter_isSome (rows : List RawRow) :
    (rows.filter fun r => r.item_name.isSome).map normalizeRow =
      (rows.map normalizeRow).filter fun c => c.item_name.isSome := by
  induction rows with
  | nil => rfl
  | cons r rs ih =>
    cases hr : r.item_name with
    | none =>
      have h1 : r.item_name.isSome = false := by rw [hr]; rfl
      have h2 : (normalizeRow r).item_name.isSome = false := by rw [normalizeRow_item]; exact h1
      simp [List.filter_cons, h1, h2, ih]
    | some n =>
      have h1 : r.item_name.isSome = true := by rw [hr]; rfl
      have h2 : (normalizeRow r).item_name.isSome = true := by rw [normalizeRow_item]; exact h1
      simp [List.filter_cons, h1, h2, ih]

/-- C10: a row whose item name is missing is dropped from the
aggregation entirely — removing all such rows changes neither the output
rows nor the totals. -/
theorem C10_null_item_dropped (rows : List RawRow) :
    aggregate rows = aggregate (rows.filter fun r => r.item_name.isSome) ∧
    reportTotals rows = reportTotals (rows.filter fun r => r.item_name.isSome) := by
  have hkeys : keysOf ((rows.map normalizeRow).filter fun c => c.item_name.isSome) =
      keysOf (rows.map normalizeRow) := by
    unfold keysOf
    rw [filterMap_rowKey_filter]
  have hagg : aggregate (rows.filter fun r => r.item_name.isSome) = aggregate rows := by
    unfold aggregate
    rw [map_filter_isSome, hkeys]
    apply List.map_congr_left
    intro k _
    unfold aggRowFor
    rw [groupRows_filter]
  refine ⟨hagg.symm, ?_⟩
  unfold reportTotals
  rw [hagg]
